import Mathlib

/-!
# Verification of the festival-band service (`src/main.rs`)

Shallow embedding of the core of the service: the nested source-document
model, the startup flattening pipeline, the in-memory store, the
random-sampling endpoint and the full-export endpoint.  Rust `usize`/`u16`
values are modelled as `Nat` (with explicit range checks where the source
performs them), `Vec`/slices as `List`, fallible operations as `Option`.
The random number generator is modelled as an explicit function argument,
so every theorem about the sampler is quantified over all possible
generator behaviours.
-/

namespace NogEenBandje

/-- `FestivalYear` (main.rs lines 30-34): one year of one festival with its
artist list.  `year` has Rust type `u16`, modelled as `Nat` (the parsing
model below enforces the `u16` range). -/
structure FestivalYear where
  year : Nat
  artists : List String
deriving Repr, DecidableEq

/-- `Festival` (main.rs lines 24-28): a named festival with its years. -/
structure Festival where
  name : String
  years : List FestivalYear
deriving Repr, DecidableEq

/-- `BandData` (main.rs lines 19-22): the root of the parsed source document. -/
structure BandData where
  festivals : List Festival
deriving Repr, DecidableEq

/-- `ArtistPerformance` (main.rs lines 38-43): one flattened performance
record `{name, festival, year}`. -/
structure ArtistPerformance where
  name : String
  festival : String
  year : Nat
deriving Repr, DecidableEq

/-- `AppState` (main.rs lines 47-50): the in-memory store holding the
flattened list of all performances. -/
structure AppState where
  all_performances : List ArtistPerformance
deriving Repr, DecidableEq

/-- The flattening loop of `APP_STATE` (main.rs lines 65-76): start from an
empty vector and push one `ArtistPerformance` per artist, iterating
festivals, then years, then artists, in document order.  Each `foldl`
models one `for` loop, `acc ++ [r]` models `all_performances.push(r)`. -/
def flattenPerformances (bd : BandData) : List ArtistPerformance :=
  bd.festivals.foldl (fun acc festival =>
    festival.years.foldl (fun acc year =>
      year.artists.foldl (fun acc artist =>
        acc ++ [{ name := artist, festival := festival.name, year := year.year }])
        acc)
      acc)
    []

/-- Spec-side flattening, following the spec's words: "depth-first
traversal — for each Festival in document order, for each Year in that
festival's order, for each artist name in that year's order, append one
PerformanceRecord with `{artist: name, festival: festival.name,
year: year.year}`".  Stated as nested `flatMap`/`map`; compared with the
source-side `flattenPerformances` in claim C5. -/
def flattenSpec (bd : BandData) : List ArtistPerformance :=
  bd.festivals.flatMap (fun festival =>
    festival.years.flatMap (fun year =>
      year.artists.map (fun artist =>
        { name := artist, festival := festival.name, year := year.year })))

/-- `RandomBandParams` (main.rs lines 90-93): the optional `count` query
parameter, `Option<usize>` modelled as `Option Nat`. -/
structure RandomBandParams where
  count : Option Nat
deriving Repr, DecidableEq

/-- Rust's `Ord::clamp` on `usize` (used at main.rs line 146):
`if self < min { min } else if self > max { max } else { self }`. -/
def rustClamp (x lo hi : Nat) : Nat :=
  if x < lo then lo else if x > hi then hi else x

/-- The count computation of main.rs line 146:
`params.count.unwrap_or(1).clamp(1, 5)`. -/
def effective_count (c : Option Nat) : Nat :=
  rustClamp (c.getD 1) 1 5

/-! ## The sampler

`choose_multiple` (main.rs line 152) is `rand`'s
`IndexedRandom::choose_multiple`, which clamps the amount to the slice
length and then draws that many distinct indices with
`index::sample(rng, length, amount)`.  We model the index sampling by the
library's in-place partial Fisher-Yates shuffle (`sample_inplace`): the
indices array starts as `0..length`; for each `i < amount` the entry at
`i` is swapped with the entry at a random position `j` drawn uniformly
from `i..length`; the array is then truncated to `amount` entries.

The mutable `u32` indices array is modelled as a function `Nat → Nat`
(initially the identity), a swap as a pointwise update, and the generator
as a function `rng : Nat → Nat` whose value at step `i` is reduced into
the required range `i..length` by `i + rng i % (length - i)`. -/

/-- Swap the entries of array `a` at positions `i` and `j`
(`indices.swap(i, j)` in `sample_inplace`). -/
def swapFn (a : Nat → Nat) (i j : Nat) : Nat → Nat :=
  fun p => if p = i then a j else if p = j then a i else a p

/-- The indices array of `sample_inplace` after the first `steps` loop
iterations, starting from the identity array `0..length`.  Iteration `i`
swaps positions `i` and `i + rng i % (length - i)` (the model of
`rng.random_range(i..length)`). -/
def fyArray (rng : Nat → Nat) (length : Nat) : Nat → (Nat → Nat)
  | 0 => fun p => p
  | steps + 1 => swapFn (fyArray rng length steps) steps
      (steps + rng steps % (length - steps))

/-- `index::sample` modelled by `sample_inplace`: run `amount` partial
Fisher-Yates steps over the array `0..length` and keep the first `amount`
entries (`indices.truncate(amount)`). -/
def sample_inplace (rng : Nat → Nat) (length amount : Nat) : List Nat :=
  (List.range amount).map (fyArray rng length amount)

/-- `IndexedRandom::choose_multiple` on a slice, followed by
`.cloned().collect()` (main.rs lines 150-154): clamp `amount` to the
slice length, sample that many distinct indices, and read the elements at
those indices in sample order. -/
def choose_multiple {α : Type} (rng : Nat → Nat) (l : List α) (amount : Nat) :
    List α :=
  (sample_inplace rng l.length (min amount l.length)).filterMap (fun i => l[i]?)

/-- An HTTP response of the API: either status 200 with a JSON array of
performance records, or status 404 with a JSON body
`{"error": <message>}`. -/
inductive ApiResponse where
  | ok (body : List ArtistPerformance) : ApiResponse
  | notFound (errorMessage : String) : ApiResponse
deriving Repr, DecidableEq

/-- `random_bands_api_handler` (main.rs lines 141-165): clamp the
requested count, choose that many random performances from the store, and
answer 200 with the selection when it is non-empty, 404 with
`{"error": "No performances found."}` otherwise. -/
def random_bands_api_handler (rng : Nat → Nat) (state : AppState)
    (params : RandomBandParams) : ApiResponse :=
  let count := rustClamp (params.count.getD 1) 1 5
  let random_selection := choose_multiple rng state.all_performances count
  if !random_selection.isEmpty then
    ApiResponse.ok random_selection
  else
    ApiResponse.notFound "No performances found."

/-- `all_bands_handler` (main.rs lines 168-179): the JSON body of the
full-export endpoint, `state.all_performances.clone()`.  The attachment
headers are transport detail and are not modelled. -/
def all_bands_handler (state : AppState) : List ArtistPerformance :=
  state.all_performances

/-! ## Startup

`APP_STATE` (main.rs lines 53-86) reads `bands.json`, parses it, and
flattens it; both the read and the parse go through `.expect`, which
aborts the process on failure.  The filesystem read is modelled by an
`Option String` (the file's contents when present), the external
`serde_json` parser by a function `String → Option BandData`, and an
`.expect` abort by propagating `none`: a `some` result is exactly a fully
initialized request-serving state. -/
def startup (file : Option String) (parse : String → Option BandData) :
    Option AppState :=
  match file with
  | none => none
  | some file_content =>
    match parse file_content with
    | none => none
    | some band_data => some { all_performances := flattenPerformances band_data }

/-! ## Deserialization of year values

`FestivalYear.year` has Rust type `u16` (main.rs line 32), so
`serde_json::from_str` (main.rs line 62) accepts a document only when
every `year` field is an integer representable in `u16`: serde's `u16`
deserializer rejects any JSON integer outside `[0, 65535]` as an invalid
value.  The raw document (years as unconstrained integers) and this range
check are modelled below; the rest of the derived deserialization carries
fields through unchanged. -/

/-- A raw `FestivalYear` as it appears in the JSON document: the year is
an arbitrary integer before the `u16` range check. -/
structure RawFestivalYear where
  year : Int
  artists : List String
deriving Repr, DecidableEq

/-- A raw `Festival` as it appears in the JSON document. -/
structure RawFestival where
  name : String
  years : List RawFestivalYear
deriving Repr, DecidableEq

/-- A raw source document as it appears in the JSON file. -/
structure RawBandData where
  festivals : List RawFestival
deriving Repr, DecidableEq

/-- serde's deserialization of a JSON integer into a `u16`: accepted
exactly when the value lies in `[0, 65535]`, rejected as malformed
otherwise. -/
def parseU16 (v : Int) : Option Nat :=
  if 0 ≤ v ∧ v ≤ 65535 then some v.toNat else none

/-- Deserialize every element of a list, failing if any element fails
(`serde` fails the whole document on the first bad element). -/
def parseList {α β : Type} (f : α → Option β) : List α → Option (List β)
  | [] => some []
  | a :: rest =>
    match f a, parseList f rest with
    | some b, some bs => some (b :: bs)
    | _, _ => none

/-- Deserialize one `FestivalYear`: the year goes through the `u16` range
check, the artist list is carried through unchanged. -/
def parseFestivalYear (r : RawFestivalYear) : Option FestivalYear :=
  (parseU16 r.year).map (fun y => { year := y, artists := r.artists })

/-- Deserialize one `Festival`. -/
def parseFestival (r : RawFestival) : Option Festival :=
  (parseList parseFestivalYear r.years).map
    (fun ys => { name := r.name, years := ys })

/-- Deserialize the whole source document (`serde_json::from_str` into
`BandData`, main.rs lines 61-62). -/
def parseBandData (r : RawBandData) : Option BandData :=
  (parseList parseFestival r.festivals).map (fun fs => { festivals := fs })

/-! ## The sampler's randomness

`rng.random_range(i..length)` draws uniformly from `i..length`, i.e. an
offset uniform in `Fin (length - i)`, independently at each step.  The
finite space of all draw sequences consumed by one `sample_inplace` call
is made explicit so that uniformity of the sampler can be stated as a
counting property: equal numbers of draw sequences lead to each possible
subset of selected positions. -/

/-- The draws consumed by `sample_inplace rng length amount`: at step
`i < amount` a uniform offset in `Fin (length - i)`. -/
abbrev SampleSeed (amount length : Nat) : Type :=
  (i : Fin amount) → Fin (length - i.val)

/-- Read a draw sequence back as a generator: at step `i < amount` the
generator yields the drawn offset (which the algorithm's
`% (length - i)` leaves unchanged), and `0` at irrelevant inputs. -/
def seedRng {amount length : Nat} (s : SampleSeed amount length) :
    Nat → Nat :=
  fun i => if h : i < amount then (s ⟨i, h⟩ : Nat) else 0

/-! ## Flattening lemmas -/

theorem foldl_push_artists (artists : List String) (fname : String) (yr : Nat)
    (acc : List ArtistPerformance) :
    artists.foldl (fun acc artist =>
        acc ++ [{ name := artist, festival := fname, year := yr }]) acc
      = acc ++ artists.map
          (fun artist => { name := artist, festival := fname, year := yr }) := by
  induction artists generalizing acc with
  | nil => simp
  | cons a rest ih => simp [ih]

theorem foldl_push_years (years : List FestivalYear) (fname : String)
    (acc : List ArtistPerformance) :
    years.foldl (fun acc year =>
        year.artists.foldl (fun acc artist =>
          acc ++ [{ name := artist, festival := fname, year := year.year }]) acc)
        acc
      = acc ++ years.flatMap (fun year =>
          year.artists.map
            (fun artist => { name := artist, festival := fname, year := year.year })) := by
  induction years generalizing acc with
  | nil => simp
  | cons y rest ih =>
    rw [List.foldl_cons, foldl_push_artists, ih, List.flatMap_cons,
      List.append_assoc]

theorem flattenPerformances_eq_spec (bd : BandData) :
    flattenPerformances bd = flattenSpec bd := by
  show bd.festivals.foldl _ [] = _
  rw [flattenSpec]
  generalize bd.festivals = fs
  have general : ∀ (fs : List Festival) (acc : List ArtistPerformance),
      fs.foldl (fun acc festival =>
        festival.years.foldl (fun acc year =>
          year.artists.foldl (fun acc artist =>
            acc ++ [{ name := artist, festival := festival.name, year := year.year }])
            acc) acc) acc
      = acc ++ fs.flatMap (fun festival =>
          festival.years.flatMap (fun year =>
            year.artists.map (fun artist =>
              { name := artist, festival := festival.name, year := year.year }))) := by
    intro fs
    induction fs with
    | nil => simp
    | cons f rest ih =>
      intro acc
      rw [List.foldl_cons, foldl_push_years, ih, List.flatMap_cons,
        List.append_assoc]
  simpa using general fs []

/-- C1: the effective sample count is `max(1, min(5, c))` for a supplied
count `c`, is `1` when the count is absent, and a supplied count of `0`
yields the same effective count as a supplied count of `1`. -/
theorem effective_count_clamp_law :
    (∀ c : Nat, effective_count (some c) = max 1 (min 5 c)) ∧
    effective_count none = 1 ∧
    effective_count (some 0) = effective_count (some 1) := by
  refine ⟨fun c => ?_, rfl, rfl⟩
  simp only [effective_count, rustClamp, Option.getD_some]
  split_ifs <;> omega

/-- C5: flattening is the depth-first traversal of the source document —
festivals in document order, then years, then artists — appending one
record per artist with no reordering, deduplication or filtering
(`flattenPerformances` agrees with the spec-side `flattenSpec` on every
document), and the spec's concrete scenario holds. -/
theorem flatten_depth_first :
    (∀ bd : BandData, flattenPerformances bd = flattenSpec bd) ∧
    flattenPerformances
        { festivals := [{ name := "Lowlands",
                          years := [{ year := 2015, artists := ["A", "B"] }] }] }
      = [{ name := "A", festival := "Lowlands", year := 2015 },
         { name := "B", festival := "Lowlands", year := 2015 }] :=
  ⟨flattenPerformances_eq_spec, rfl⟩

/-! ## Sampler lemmas -/

theorem swapFn_eq_comp_swap (a : Nat → Nat) (i j : Nat) :
    swapFn a i j = a ∘ (Equiv.swap i j) := by
  funext p
  simp only [swapFn, Function.comp_apply, Equiv.swap_apply_def]
  split_ifs <;> rfl

theorem fyArray_bijective (rng : Nat → Nat) (n : Nat) :
    ∀ steps, Function.Bijective (fyArray rng n steps)
  | 0 => Function.bijective_id
  | steps + 1 => by
    show Function.Bijective (swapFn (fyArray rng n steps) steps _)
    rw [swapFn_eq_comp_swap]
    exact (fyArray_bijective rng n steps).comp (Equiv.swap _ _).bijective

theorem fyArray_congr (rng rng' : Nat → Nat) (n : Nat) :
    ∀ steps, (∀ j, j < steps → rng j = rng' j) →
      fyArray rng n steps = fyArray rng' n steps
  | 0, _ => rfl
  | steps + 1, h => by
    show swapFn (fyArray rng n steps) steps _
        = swapFn (fyArray rng' n steps) steps _
    rw [fyArray_congr rng rng' n steps (fun j hj => h j (Nat.lt_succ_of_lt hj)),
      h steps (Nat.lt_succ_self steps)]

theorem fyArray_lt (rng : Nat → Nat) (n : Nat) :
    ∀ steps, steps ≤ n → ∀ p, p < n → fyArray rng n steps p < n
  | 0, _, _, hp => hp
  | steps + 1, h, p, hp => by
    have hs : steps < n := h
    have hj : steps + rng steps % (n - steps) < n := by
      have := Nat.mod_lt (rng steps) (show 0 < n - steps by omega)
      omega
    show swapFn (fyArray rng n steps) steps _ p < n
    unfold swapFn
    split_ifs
    · exact fyArray_lt rng n steps (le_of_lt hs) _ hj
    · exact fyArray_lt rng n steps (le_of_lt hs) _ hs
    · exact fyArray_lt rng n steps (le_of_lt hs) _ hp

/-- Once the loop has passed position `i`, the array entry at `i` never
changes again: later iterations swap only positions `≥ i + 1`. -/
theorem fyArray_stable (rng : Nat → Nat) (n i : Nat) :
    ∀ m, i < m → fyArray rng n m i = fyArray rng n (i + 1) i := by
  intro m
  induction m with
  | zero => omega
  | succ m ih =>
    intro h
    rcases Nat.lt_or_ge i m with h' | h'
    · show swapFn (fyArray rng n m) m _ i = _
      unfold swapFn
      rw [if_neg (Nat.ne_of_lt h'), if_neg (by omega)]
      exact ih h'
    · have : m = i := by omega
      subst this
      rfl

/-- The entry placed at position `i` by iteration `i` is the pre-swap
entry at the drawn position `i + rng i % (n - i)`. -/
theorem fyArray_succ_self (rng : Nat → Nat) (n i : Nat) :
    fyArray rng n (i + 1) i = fyArray rng n i (i + rng i % (n - i)) := by
  show swapFn (fyArray rng n i) i _ i = _
  unfold swapFn
  rw [if_pos rfl]

theorem sample_inplace_length (rng : Nat → Nat) (n amount : Nat) :
    (sample_inplace rng n amount).length = amount := by
  simp [sample_inplace]

theorem sample_inplace_nodup (rng : Nat → Nat) (n amount : Nat) :
    (sample_inplace rng n amount).Nodup :=
  List.Nodup.map (fyArray_bijective rng n amount).injective
    (List.nodup_range amount)

theorem sample_inplace_mem_lt (rng : Nat → Nat) (n amount : Nat)
    (h : amount ≤ n) : ∀ i ∈ sample_inplace rng n amount, i < n := by
  intro i hi
  simp only [sample_inplace, List.mem_map, List.mem_range] at hi
  obtain ⟨p, hp, rfl⟩ := hi
  exact fyArray_lt rng n amount h p (lt_of_lt_of_le hp h)

theorem length_filterMap_getElem {α : Type} (l : List α) :
    ∀ idxs : List Nat, (∀ i ∈ idxs, i < l.length) →
      (idxs.filterMap (fun i => l[i]?)).length = idxs.length
  | [], _ => rfl
  | i :: rest, h => by
    have hi : i < l.length := h i (List.mem_cons_self i rest)
    rw [List.filterMap_cons, List.getElem?_eq_getElem hi]
    simp [length_filterMap_getElem l rest
      (fun j hj => h j (List.mem_cons_of_mem i hj))]

theorem choose_multiple_length {α : Type} (rng : Nat → Nat) (l : List α)
    (amount : Nat) :
    (choose_multiple rng l amount).length = min amount l.length := by
  rw [choose_multiple,
    length_filterMap_getElem l _
      (sample_inplace_mem_lt rng l.length (min amount l.length)
        (Nat.min_le_right _ _)),
    sample_inplace_length]

theorem one_le_rustClamp (x : Nat) : 1 ≤ rustClamp x 1 5 := by
  unfold rustClamp
  split_ifs <;> omega

/-- C6: the flattened collection has exactly one record per artist
occurrence: its length is the sum over all (festival, year) pairs of the
number of artists listed under that year. -/
theorem flatten_length_law :
    ∀ bd : BandData,
      (flattenPerformances bd).length
        = (bd.festivals.map (fun festival =>
            (festival.years.map (fun year => year.artists.length)).sum)).sum := by
  intro bd
  rw [flattenPerformances_eq_spec, flattenSpec]
  simp [Function.comp_def]

/-- C2: for every generator behaviour, store contents and requested
count, the sampling operation returns a sequence of length exactly
`min(effective_count(c), store size)`. -/
theorem sample_length_law :
    ∀ (rng : Nat → Nat) (state : AppState) (c : Option Nat),
      (choose_multiple rng state.all_performances (effective_count c)).length
        = min (effective_count c) state.all_performances.length :=
  fun rng state c =>
    choose_multiple_length rng state.all_performances (effective_count c)

/-- C3: every single sampling result reads the store at pairwise distinct
positions: the selection is the store read along an index list with no
duplicates, all indices in bounds. -/
theorem sample_distinct_positions :
    ∀ (rng : Nat → Nat) (state : AppState) (c : Option Nat),
      ∃ idxs : List Nat,
        idxs.Nodup ∧ (∀ i ∈ idxs, i < state.all_performances.length) ∧
        choose_multiple rng state.all_performances (effective_count c)
          = idxs.filterMap (fun i => state.all_performances[i]?) :=
  fun rng state c =>
    ⟨sample_inplace rng state.all_performances.length
        (min (effective_count c) state.all_performances.length),
      sample_inplace_nodup _ _ _,
      sample_inplace_mem_lt _ _ _ (Nat.min_le_right _ _),
      rfl⟩

/-- C4: the random-bands endpoint answers status 404 with body
`{"error": "No performances found."}` exactly when the store is empty,
and status 200 with a JSON array of the sampled records whenever the
store is non-empty, for every requested count. -/
theorem random_bands_response_law :
    ∀ (rng : Nat → Nat) (state : AppState) (params : RandomBandParams),
      (random_bands_api_handler rng state params
          = ApiResponse.notFound "No performances found."
        ↔ state.all_performances = []) ∧
      (state.all_performances ≠ [] →
        ∃ sel : List ArtistPerformance, sel ≠ [] ∧
          random_bands_api_handler rng state params = ApiResponse.ok sel) := by
  intro rng state params
  have hlen : (choose_multiple rng state.all_performances
        (rustClamp (params.count.getD 1) 1 5)).length
      = min (rustClamp (params.count.getD 1) 1 5)
          state.all_performances.length :=
    choose_multiple_length _ _ _
  rcases eq_or_ne state.all_performances [] with hemp | hne
  · have hsel : choose_multiple rng state.all_performances
        (rustClamp (params.count.getD 1) 1 5) = [] := by
      rw [← List.length_eq_zero, hlen, hemp]
      simp
    have h404 : random_bands_api_handler rng state params
        = ApiResponse.notFound "No performances found." := by
      simp [random_bands_api_handler, hsel]
    exact ⟨⟨fun _ => hemp, fun _ => h404⟩, fun h => absurd hemp h⟩
  · have hone := one_le_rustClamp (params.count.getD 1)
    have hpos : 0 < state.all_performances.length := List.length_pos.mpr hne
    have hsel : choose_multiple rng state.all_performances
        (rustClamp (params.count.getD 1) 1 5) ≠ [] := by
      intro h
      rw [h] at hlen
      simp only [List.length_nil] at hlen
      omega
    obtain ⟨x, xs, hx⟩ := List.exists_cons_of_ne_nil hsel
    have hok : random_bands_api_handler rng state params
        = ApiResponse.ok (x :: xs) := by
      simp [random_bands_api_handler, hx]
    refine ⟨⟨fun h => ?_, fun h => absurd h hne⟩,
      fun _ => ⟨x :: xs, List.cons_ne_nil x xs, hok⟩⟩
    rw [hok] at h
    exact ApiResponse.noConfusion h

/-- Witness for C4: on a one-record store the endpoint answers 200 with a
non-empty selection. -/
theorem random_bands_response_law_witness :
    ∃ sel : List ArtistPerformance, sel ≠ [] ∧
      random_bands_api_handler (fun _ => 0)
        { all_performances := [{ name := "X", festival := "F", year := 2000 }] }
        { count := some 3 } = ApiResponse.ok sel :=
  (random_bands_response_law (fun _ => 0)
      { all_performances := [{ name := "X", festival := "F", year := 2000 }] }
      { count := some 3 }).2 (by simp)

/-- C7: the export endpoint returns the stored collection verbatim, and
on a store initialized by startup it returns exactly the flattened
collection of the parsed document — every record once, in flattening
order. -/
theorem export_all_complete :
    ∀ (state : AppState) (parse : String → Option BandData)
      (file_content : String) (band_data : BandData),
      all_bands_handler state = state.all_performances ∧
      (parse file_content = some band_data →
        startup (some file_content) parse = some state →
        all_bands_handler state = flattenPerformances band_data) := by
  intro state parse file_content band_data
  refine ⟨rfl, fun hp hs => ?_⟩
  simp only [startup, hp, Option.some.injEq] at hs
  rw [← hs]
  rfl

/-- Witness for C7: a concrete store initialized from a one-festival
document exports exactly its flattening. -/
theorem export_all_complete_witness :
    all_bands_handler
        { all_performances := flattenPerformances
            { festivals := [{ name := "F",
                              years := [{ year := 2015, artists := ["A"] }] }] } }
      = flattenPerformances
          { festivals := [{ name := "F",
                            years := [{ year := 2015, artists := ["A"] }] }] } :=
  (export_all_complete
      { all_performances := flattenPerformances
          { festivals := [{ name := "F",
                            years := [{ year := 2015, artists := ["A"] }] }] } }
      (fun _ => some { festivals := [{ name := "F",
                                       years := [{ year := 2015, artists := ["A"] }] }] })
      "doc"
      { festivals := [{ name := "F",
                        years := [{ year := 2015, artists := ["A"] }] }] }).2
    rfl rfl

/-- C9: startup yields no request-serving state when the backing file is
absent or fails to parse, and every state it does yield is fully
initialized from a successfully parsed document. -/
theorem startup_no_partial_state :
    ∀ parse : String → Option BandData,
      startup none parse = none ∧
      (∀ file_content : String, parse file_content = none →
        startup (some file_content) parse = none) ∧
      (∀ (file : Option String) (state : AppState),
        startup file parse = some state →
        ∃ (file_content : String) (band_data : BandData),
          file = some file_content ∧ parse file_content = some band_data ∧
          state.all_performances = flattenPerformances band_data) := by
  intro parse
  refine ⟨rfl, fun s hp => ?_, fun file state hs => ?_⟩
  · simp [startup, hp]
  · cases file with
    | none => simp [startup] at hs
    | some s =>
      cases hpp : parse s with
      | none => simp [startup, hpp] at hs
      | some bd =>
        simp only [startup, hpp, Option.some.injEq] at hs
        exact ⟨s, bd, rfl, hpp, by rw [← hs]⟩

/-- Witness for C9: startup on an absent file, and on a file whose parse
fails, yields no state. -/
theorem startup_no_partial_state_witness :
    startup none (fun _ => some { festivals := [] }) = none ∧
    startup (some "bad") (fun _ => none) = none :=
  ⟨(startup_no_partial_state (fun _ => some { festivals := [] })).1,
   (startup_no_partial_state (fun _ => none)).2.1 "bad" rfl⟩

/-! ## Year-range lemmas -/

theorem parseU16_isSome (v : Int) :
    (parseU16 v).isSome ↔ 0 ≤ v ∧ v ≤ 65535 := by
  rw [parseU16]
  split_ifs with h <;> simp [h]

theorem parseU16_le (v : Int) (y : Nat) (h : parseU16 v = some y) :
    y ≤ 65535 := by
  rw [parseU16] at h
  split_ifs at h with hv
  cases h
  omega

theorem parseList_cons_none_left {α β : Type} (f : α → Option β) (a : α)
    (rest : List α) (h : f a = none) : parseList f (a :: rest) = none := by
  rw [parseList, h]

theorem parseList_cons_none_right {α β : Type} (f : α → Option β) (a : α)
    (rest : List α) (h : parseList f rest = none) :
    parseList f (a :: rest) = none := by
  rw [parseList, h]
  rcases f a with _ | b <;> rfl

theorem parseList_cons_some {α β : Type} (f : α → Option β) (a : α)
    (rest : List α) (b : β) (bs : List β) (hb : f a = some b)
    (hbs : parseList f rest = some bs) :
    parseList f (a :: rest) = some (b :: bs) := by
  rw [parseList, hb, hbs]

theorem parseList_isSome {α β : Type} (f : α → Option β) :
    ∀ l : List α, (parseList f l).isSome ↔ ∀ a ∈ l, (f a).isSome := by
  intro l
  induction l with
  | nil => simp [parseList]
  | cons a rest ih =>
    constructor
    · intro h
      rcases hfa : f a with _ | b
      · rw [parseList_cons_none_left f a rest hfa] at h
        exact absurd h (by simp)
      · rcases hrest : parseList f rest with _ | bs
        · rw [parseList_cons_none_right f a rest hrest] at h
          exact absurd h (by simp)
        · intro x hx
          rcases List.mem_cons.mp hx with rfl | hx'
          · simp [hfa]
          · refine (ih.mp ?_) x hx'
            rw [hrest]
            rfl
    · intro h
      obtain ⟨b, hb⟩ := Option.isSome_iff_exists.mp
        (h a (List.mem_cons_self a rest))
      obtain ⟨bs, hbs⟩ := Option.isSome_iff_exists.mp
        (ih.mpr (fun x hx => h x (List.mem_cons_of_mem a hx)))
      rw [parseList_cons_some f a rest b bs hb hbs]
      rfl

theorem parseList_mem {α β : Type} (f : α → Option β) :
    ∀ (l : List α) (res : List β), parseList f l = some res →
      ∀ b ∈ res, ∃ a ∈ l, f a = some b := by
  intro l
  induction l with
  | nil =>
    intro res h b hb
    rw [parseList] at h
    cases h
    simp at hb
  | cons a rest ih =>
    intro res h b hb
    rw [parseList] at h
    rcases hfa : f a with _ | b0 <;> rw [hfa] at h
    · cases h
    · rcases hrest : parseList f rest with _ | bs <;> rw [hrest] at h
      · cases h
      · cases h
        rcases List.mem_cons.mp hb with rfl | hb'
        · exact ⟨a, List.mem_cons_self a rest, hfa⟩
        · obtain ⟨a', ha', hfa'⟩ := ih bs hrest b hb'
          exact ⟨a', List.mem_cons_of_mem a ha', hfa'⟩

/-- Any record of a flattened document takes its year from some year
entry of the document. -/
theorem mem_flatten_year (bd : BandData) (rec : ArtistPerformance)
    (h : rec ∈ flattenPerformances bd) :
    ∃ festival ∈ bd.festivals, ∃ year ∈ festival.years,
      rec.year = year.year := by
  rw [flattenPerformances_eq_spec, flattenSpec] at h
  simp only [List.mem_flatMap, List.mem_map] at h
  obtain ⟨f, hf, y, hy, a, ha, rfl⟩ := h
  exact ⟨f, hf, y, hy, rfl⟩

/-- Every year of a successfully deserialized document passed the `u16`
range check. -/
theorem parsed_year_le (raw : RawBandData) (band_data : BandData)
    (h : parseBandData raw = some band_data) :
    ∀ festival ∈ band_data.festivals, ∀ year ∈ festival.years,
      year.year ≤ 65535 := by
  intro festival hf year hy
  rw [parseBandData] at h
  obtain ⟨fs, hfs, hbd⟩ := Option.map_eq_some'.mp h
  cases hbd
  obtain ⟨rf, hrf, hpf⟩ := parseList_mem parseFestival raw.festivals fs hfs
    festival hf
  rw [parseFestival] at hpf
  obtain ⟨ys, hys, hfe⟩ := Option.map_eq_some'.mp hpf
  cases hfe
  obtain ⟨ry, hry, hpy⟩ := parseList_mem parseFestivalYear rf.years ys hys
    year hy
  rw [parseFestivalYear] at hpy
  obtain ⟨y0, hy0, hye⟩ := Option.map_eq_some'.mp hpy
  cases hye
  exact parseU16_le ry.year y0 hy0

/-- C10: deserialization accepts a source document exactly when every
year value is an integer in the `u16` range `[0, 65535]`, and
consequently every record flattened from an accepted document has a year
in `[0, 65535]`. -/
theorem year_u16_range_law :
    ∀ raw : RawBandData,
      ((parseBandData raw).isSome ↔
        ∀ rf ∈ raw.festivals, ∀ ry ∈ rf.years,
          0 ≤ ry.year ∧ ry.year ≤ 65535) ∧
      (∀ band_data : BandData, parseBandData raw = some band_data →
        ∀ rec ∈ flattenPerformances band_data, rec.year ≤ 65535) := by
  intro raw
  constructor
  · rw [parseBandData, Option.isSome_map', parseList_isSome]
    refine forall₂_congr (fun rf _ => ?_)
    rw [parseFestival, Option.isSome_map', parseList_isSome]
    refine forall₂_congr (fun ry _ => ?_)
    rw [parseFestivalYear, Option.isSome_map', parseU16_isSome]
  · intro band_data h rec hrec
    obtain ⟨f, hf, y, hy, hyr⟩ := mem_flatten_year band_data rec hrec
    rw [hyr]
    exact parsed_year_le raw band_data h f hf y hy

/-- Witness for C10: a concrete in-range document is accepted and its
single flattened record has a year within the `u16` range. -/
theorem year_u16_range_law_witness :
    ({ name := "A", festival := "F", year := 2015 } : ArtistPerformance).year
      ≤ 65535 :=
  (year_u16_range_law
      { festivals := [{ name := "F",
                        years := [{ year := 2015, artists := ["A"] }] }] }).2
    { festivals := [{ name := "F",
                      years := [{ year := 2015, artists := ["A"] }] }] }
    (by rfl)
    { name := "A", festival := "F", year := 2015 }
    (List.mem_singleton_self
      ({ name := "A", festival := "F", year := 2015 } : ArtistPerformance))

/-! ## Uniformity of the sampler

With the generator draws made explicit (`SampleSeed`), uniformity of
`sample_inplace` is a counting statement: since the draw at step `i` is
uniform on `i..length` and draws are independent, every draw sequence is
equally likely, so it suffices that equally many draw sequences realize
each target subset of positions.  The proof shows that the map from draw
sequences to outcome sequences is a bijection onto the injections
`Fin k ↪ Fin n` (injective by a first-difference argument, bijective by
counting: both sides have `n.descFactorial k` elements), and that each
`k`-element subset is the range of exactly `k!` injections. -/

theorem seedRng_eval {amount length : Nat} (s : SampleSeed amount length)
    (i : Nat) (h : i < amount) : seedRng s i = (s ⟨i, h⟩ : Nat) := by
  simp [seedRng, h]

/-- Under an explicit draw sequence, the outcome at position `i` is the
entry that step `i` pulled from the drawn position `i + s i`. -/
theorem fyArray_seed_outcome {amount length : Nat}
    (s : SampleSeed amount length) (i : Nat) (hi : i < amount) :
    fyArray (seedRng s) length amount i
      = fyArray (seedRng s) length i (i + (s ⟨i, hi⟩ : Nat)) := by
  rw [fyArray_stable (seedRng s) length i amount hi, fyArray_succ_self,
    seedRng_eval s i hi, Nat.mod_eq_of_lt (s ⟨i, hi⟩).isLt]

/-- Distinct draw sequences produce distinct outcome sequences: at the
first step where two sequences differ, the (injective) pre-swap array is
read at two different positions. -/
theorem seed_outcome_injective (length amount : Nat) :
    Function.Injective (fun s : SampleSeed amount length =>
      (fun i : Fin amount => fyArray (seedRng s) length amount i.val)) := by
  intro s s' h
  have key : ∀ m : Nat, ∀ i : Fin amount, i.val = m → s i = s' i := by
    intro m
    induction m using Nat.strong_induction_on with
    | _ m ih =>
      intro i him
      have hagree : ∀ j, j < i.val → seedRng s j = seedRng s' j := by
        intro j hj
        have hjk : j < amount := lt_trans hj i.isLt
        rw [seedRng_eval s j hjk, seedRng_eval s' j hjk]
        exact congrArg Fin.val (ih j (him ▸ hj) ⟨j, hjk⟩ rfl)
      have harr := fyArray_congr (seedRng s) (seedRng s') length i.val hagree
      have houtcome : fyArray (seedRng s) length amount i.val
          = fyArray (seedRng s') length amount i.val := congrFun h i
      rw [fyArray_seed_outcome s i.val i.isLt,
        fyArray_seed_outcome s' i.val i.isLt, ← harr] at houtcome
      have hval :=
        (fyArray_bijective (seedRng s) length i.val).injective houtcome
      have hv : (s ⟨i.val, i.isLt⟩ : Nat) = (s' ⟨i.val, i.isLt⟩ : Nat) := by
        omega
      exact Fin.val_injective hv
  funext i
  exact key i.val i rfl

/-- Counting draw sequences: for every `k`-element set `S` of valid
positions, exactly `k!` of the `n.descFactorial k` draw sequences make
`sample_inplace` select exactly the positions of `S`. -/
theorem seed_subset_count (n k : Nat) (hk : k ≤ n) (S : Finset Nat)
    (hS : ∀ m ∈ S, m < n) (hcard : S.card = k) :
    (Finset.univ.filter (fun s : SampleSeed k n =>
        (sample_inplace (seedRng s) n k).toFinset = S)).card = k.factorial := by
  classical
  have hbound : ∀ (s : SampleSeed k n) (i : Fin k),
      fyArray (seedRng s) n k i.val < n :=
    fun s i => fyArray_lt (seedRng s) n k hk i.val (lt_of_lt_of_le i.isLt hk)
  let emb : SampleSeed k n → (Fin k ↪ Fin n) := fun s =>
    ⟨fun i => ⟨fyArray (seedRng s) n k i.val, hbound s i⟩,
     fun i j hij => Fin.val_injective
       ((fyArray_bijective (seedRng s) n k).injective (congrArg Fin.val hij))⟩
  have hembinj : Function.Injective emb := by
    intro s s' h
    apply seed_outcome_injective n k
    funext i
    exact congrArg Fin.val (DFunLike.congr_fun h i)
  have hcard1 : Fintype.card (SampleSeed k n) = n.descFactorial k := by
    rw [Fintype.card_pi]
    simp only [Fintype.card_fin]
    rw [Fin.prod_univ_eq_prod_range (fun i => n - i) k]
    exact (Nat.descFactorial_eq_prod_range n k).symm
  have hcard2 : Fintype.card (Fin k ↪ Fin n) = n.descFactorial k := by
    rw [Fintype.card_embedding_eq, Fintype.card_fin, Fintype.card_fin]
  have hembbij : Function.Bijective emb :=
    (Fintype.bijective_iff_injective_and_card emb).mpr
      ⟨hembinj, hcard1.trans hcard2.symm⟩
  let Sfin : Finset (Fin n) := S.attachFin hS
  have hSfincard : Sfin.card = k := by
    rw [Finset.card_attachFin]
    exact hcard
  have hmem : ∀ (s : SampleSeed k n) (x : Fin n),
      x ∈ Finset.map (emb s) Finset.univ
        ↔ x.val ∈ (sample_inplace (seedRng s) n k).toFinset := by
    intro s x
    rw [Finset.mem_map, List.mem_toFinset]
    simp only [sample_inplace, List.mem_map, List.mem_range, Finset.mem_univ,
      true_and]
    constructor
    · rintro ⟨i, rfl⟩
      exact ⟨i.val, i.isLt, rfl⟩
    · rintro ⟨p, hp, he⟩
      exact ⟨⟨p, hp⟩, Fin.ext he⟩
  have hpred : ∀ s : SampleSeed k n,
      (sample_inplace (seedRng s) n k).toFinset = S
        ↔ Finset.map (emb s) Finset.univ = Sfin := by
    intro s
    constructor
    · intro h
      ext x
      rw [hmem s x, h, Finset.mem_attachFin]
    · intro h
      ext m
      constructor
      · intro hm
        have hmn : m < n :=
          sample_inplace_mem_lt (seedRng s) n k hk m (List.mem_toFinset.mp hm)
        have hx : (⟨m, hmn⟩ : Fin n) ∈ Finset.map (emb s) Finset.univ := by
          rw [hmem s ⟨m, hmn⟩]
          exact hm
        rw [h] at hx
        exact (Finset.mem_attachFin hS).mp hx
      · intro hm
        have hmn : m < n := hS m hm
        have hx : (⟨m, hmn⟩ : Fin n) ∈ Sfin := (Finset.mem_attachFin hS).mpr hm
        rw [← h, hmem s ⟨m, hmn⟩] at hx
        exact hx
  have htrans : (Finset.univ.filter (fun s : SampleSeed k n =>
        (sample_inplace (seedRng s) n k).toFinset = S)).card
      = (Finset.univ.filter (fun e : Fin k ↪ Fin n =>
        Finset.map e Finset.univ = Sfin)).card := by
    apply Finset.card_bijective emb hembbij
    intro s
    simp only [Finset.mem_filter, Finset.mem_univ, true_and]
    exact hpred s
  have hcount : (Finset.univ : Finset (Fin k ↪ ↥Sfin)).card
      = (Finset.univ.filter (fun e : Fin k ↪ Fin n =>
        Finset.map e Finset.univ = Sfin)).card := by
    apply Finset.card_bij
      (fun (f : Fin k ↪ ↥Sfin) _ => f.trans (Function.Embedding.subtype _))
    · intro f _
      simp only [Finset.mem_filter, Finset.mem_univ, true_and]
      apply Finset.eq_of_subset_of_card_le
      · intro x hx
        rw [Finset.mem_map] at hx
        obtain ⟨i, _, rfl⟩ := hx
        exact (f i).2
      · rw [hSfincard, Finset.card_map, Finset.card_univ, Fintype.card_fin]
    · intro f _ g _ hfg
      apply Function.Embedding.ext
      intro i
      apply Subtype.ext
      exact DFunLike.congr_fun hfg i
    · intro e he
      simp only [Finset.mem_filter, Finset.mem_univ, true_and] at he
      have hmemS : ∀ i : Fin k, e i ∈ Sfin := by
        intro i
        rw [← he, Finset.mem_map]
        exact ⟨i, Finset.mem_univ i, rfl⟩
      refine ⟨⟨fun i => ⟨e i, hmemS i⟩,
        fun i j hij => e.injective (congrArg Subtype.val hij)⟩,
        Finset.mem_univ _, ?_⟩
      apply Function.Embedding.ext
      intro i
      rfl
  rw [htrans, ← hcount, Finset.card_univ, Fintype.card_embedding_eq,
    Fintype.card_fin, Fintype.card_coe, hSfincard, Nat.descFactorial_self]

/-- C8: the sampler selects positions uniformly without replacement — for
every store size `n` and requested count, any two subsets of positions of
size `min(effective_count, n)` are realized by equally many generator
draw sequences (each draw being uniform and independent, this makes every
subset of that size equally likely). -/
theorem sample_uniform_subsets :
    ∀ (n : Nat) (c : Option Nat) (S T : Finset Nat),
      S ⊆ Finset.range n → T ⊆ Finset.range n →
      S.card = min (effective_count c) n →
      T.card = min (effective_count c) n →
      (Finset.univ.filter
          (fun s : SampleSeed (min (effective_count c) n) n =>
            (sample_inplace (seedRng s) n
              (min (effective_count c) n)).toFinset = S)).card
        = (Finset.univ.filter
            (fun s : SampleSeed (min (effective_count c) n) n =>
              (sample_inplace (seedRng s) n
                (min (effective_count c) n)).toFinset = T)).card := by
  intro n c S T hS hT hSc hTc
  rw [seed_subset_count n (min (effective_count c) n) (Nat.min_le_right _ _) S
      (fun m hm => Finset.mem_range.mp (hS hm)) hSc,
    seed_subset_count n (min (effective_count c) n) (Nat.min_le_right _ _) T
      (fun m hm => Finset.mem_range.mp (hT hm)) hTc]

/-- Witness for C8: over a two-record store with requested count 1, the
one-element position sets `{0}` and `{1}` are realized by equally many
draw sequences. -/
theorem sample_uniform_subsets_witness :
    (Finset.univ.filter
        (fun s : SampleSeed (min (effective_count (some 1)) 2) 2 =>
          (sample_inplace (seedRng s) 2
            (min (effective_count (some 1)) 2)).toFinset = {0})).card
      = (Finset.univ.filter
          (fun s : SampleSeed (min (effective_count (some 1)) 2) 2 =>
            (sample_inplace (seedRng s) 2
              (min (effective_count (some 1)) 2)).toFinset = {1})).card :=
  sample_uniform_subsets 2 (some 1) {0} {1} (by decide) (by decide)
    (by decide) (by decide)

end NogEenBandje
